import Mathlib

/- Verification of the SpookyOTP one-time-password engine (spookyotp/otp.py)
   against its specification.  The Python source is shallowly embedded:
   codes are lists of characters, byte strings are lists of naturals below
   256, raising ValueError is `Except.error`, and the two stateful HOTP
   operations return the successor state explicitly.  The external HMAC
   library is a parameter (a function from key and message to digest). -/

set_option maxHeartbeats 1000000

/-- Python semantics of the slice `l[i:j]` for nonnegative bounds:
out-of-range bounds clamp instead of failing. -/
def pySlice {α : Type} (l : List α) (i j : Nat) : List α :=
  (l.take j).drop i

/-- Python semantics of the slice `l[-n:]`: the last `n` elements,
but all of `l` when `n = 0` (since `l[-0:]` is `l[0:]`). -/
def pyTakeLast {α : Type} (l : List α) (n : Nat) : List α :=
  if n = 0 then l else l.drop (l.length - n)

/-- Bit counting by repeated halving with explicit fuel (structural
recursion so that concrete instances compute in the kernel). -/
def bit_length_aux : Nat → Nat → Nat
  | 0, _ => 0
  | fuel + 1, n => if n = 0 then 0 else bit_length_aux fuel (n / 2) + 1

/-- Python `int.bit_length` for a nonnegative integer: the number of bits
needed to represent the value, 0 for 0.  The fuel of 128 caps the result at
128 for values of 128 bits or more, which leaves the source's comparison
with 64 intact: every value of more than 64 bits still reports more than
64. -/
def bit_length (n : Nat) : Nat :=
  bit_length_aux 128 n

/-- Python `int.bit_length` for an arbitrary integer: bit length of the
absolute value. -/
def int_bit_length (n : Int) : Nat :=
  bit_length n.natAbs

/-- The characters Python's `int(str, 10)` strips from both ends of its
argument (ASCII whitespace). -/
def isPyIntSpace (c : Char) : Bool :=
  c == ' ' || c == '\t' || c == '\n' || c == '\r' || c == '\x0b' || c == '\x0c'

/-- Strip `isPyIntSpace` characters from both ends of a string
(as Python's `int(str, 10)` does before parsing). -/
def stripPyWs (s : List Char) : List Char :=
  ((s.dropWhile isPyIntSpace).reverse.dropWhile isPyIntSpace).reverse

/-- After the first digit, Python's integer literals allow further digits
with single underscores strictly between digits. -/
def digitsTail : List Char → Bool
  | [] => true
  | c :: rest =>
    if c == '_' then
      match rest with
      | [] => false
      | c2 :: rest2 => c2.isDigit && digitsTail rest2
    else c.isDigit && digitsTail rest

/-- A nonempty digit sequence with optional single underscores between
digits (what must follow the sign of a Python integer literal). -/
def pyDigitSeq : List Char → Bool
  | [] => false
  | c :: rest => c.isDigit && digitsTail rest

/-- The whitespace-stripped part of a Python integer literal: an optional
sign, then a nonempty digit sequence with optional single underscores
between digits. -/
def pyIntBody : List Char → Bool
  | [] => false
  | c :: rest =>
    if c == '+' || c == '-' then pyDigitSeq rest
    else c.isDigit && digitsTail rest

/-- Whether Python's `int(s, 10)` succeeds on the (ASCII) string `s`:
optional surrounding whitespace, an optional sign, then a nonempty digit
sequence with optional single underscores between digits. -/
def pyIntOk (s : List Char) : Bool :=
  pyIntBody (stripPyWs s)

/-- `constant_time_compare` from otp.py: start from the length comparison and
accumulate character equality with AND over the zipped strings, without
short-circuiting. -/
def constant_time_compare (str_a str_b : List Char) : Bool :=
  (List.zip str_a str_b).foldl (fun are_equal p => are_equal && (p.1 == p.2))
    (str_a.length == str_b.length)

/-- Modelled from the spec: `int_to_bytearray` from spookyotp.byte_util,
whose source file is not present.  Per §4.1 of the spec it converts a 64-bit
counter to an 8-byte big-endian buffer.  The spec defines it only on the
u64 domain; negative inputs are mapped through `Int.toNat`. -/
def int_to_bytearray (n : Int) : List Nat :=
  (List.range 8).map (fun i => n.toNat / 2 ^ (8 * (7 - i)) % 256)

/-- Modelled from the spec: `bytes_to_31_bit_int` from spookyotp.byte_util,
whose source file is not present.  Per §4.1 of the spec it interprets the
buffer as a big-endian unsigned integer and clears the most significant bit
with the mask 0x7FFFFFFF. -/
def bytes_to_31_bit_int (b : List Nat) : Nat :=
  (b.foldl (fun acc x => acc * 256 + x) 0) &&& 0x7FFFFFFF

/-- Decimal rendering with explicit fuel (most significant digit first);
structural recursion so that concrete instances compute in the kernel. -/
def natDecimalAux : Nat → Nat → List Char
  | 0, _ => []
  | fuel + 1, n =>
    if n < 10 then [Nat.digitChar n]
    else natDecimalAux fuel (n / 10) ++ [Nat.digitChar (n % 10)]

/-- The decimal representation of `n` as produced by Python's format
specification (no sign, no padding).  Fuel 40 covers every value a 31-bit
truncated OTP integer can take. -/
def natDecimal (n : Nat) : List Char :=
  natDecimalAux 40 n

/-- The digest function provided by the external hmac/hashlib libraries:
key and message to digest bytes. -/
abbrev HashFun : Type :=
  List Nat → List Nat → List Nat

def invalidCounterMsg : String :=
  "Counter must fit in a unsigned, 64-bit integer"

def invalidCodeMsg : String :=
  "is not a valid OTP code"

def lookAheadMsg : String :=
  "Look-ahead must be non-negative"

def maxStepMsg : String :=
  "Max step difference must be non-negative"

/-- The body of `OTPBase._get_otp` after the counter check: HMAC, dynamic
truncation (`idx = hashed[-1] & 0x0f`, `truncated = hashed[idx:idx+4]`),
31-bit conversion, and decimal formatting zero-padded to `n_digits` followed
by the slice `[-n_digits:]`. -/
def hotp_code (alg : HashFun) (secret : List Nat) (counter_int : Int)
    (n_digits : Nat) : List Char :=
  let counter := int_to_bytearray counter_int
  let hashed := alg secret counter
  let idx := hashed.getLastD 0 &&& 0x0f
  let truncated := pySlice hashed idx (idx + 4)
  let as_int := bytes_to_31_bit_int truncated
  let digits := natDecimal as_int
  pyTakeLast (List.replicate (n_digits - digits.length) '0' ++ digits) n_digits

/-- `OTPBase._get_otp`: reject counters whose bit length exceeds 64, then
produce the truncated decimal code. -/
def OTPBase_get_otp (alg : HashFun) (secret : List Nat) (counter_int : Int)
    (n_digits : Nat) : Except String (List Char) :=
  if 64 < int_bit_length counter_int then Except.error invalidCounterMsg
  else Except.ok (hotp_code alg secret counter_int n_digits)

/-- `OTPBase._compare`: validate both codes with `int(code, 10)` (raising
ValueError when either fails to parse), then compare in constant time. -/
def OTPBase_compare (code_a code_b : List Char) : Except String Bool :=
  if pyIntOk code_a = false then Except.error invalidCodeMsg
  else if pyIntOk code_b = false then Except.error invalidCodeMsg
  else Except.ok (constant_time_compare code_a code_b)

/-- Evaluate a list of possibly-raising computations left to right, stopping
at the first raised error: the semantics of a Python list comprehension whose
body may raise. -/
def exceptList {ε α : Type} : List (Except ε α) → Except ε (List α)
  | [] => Except.ok []
  | Except.error e :: _ => Except.error e
  | Except.ok a :: rest => (exceptList rest).map (fun tl => a :: tl)

/-- Python `list.index(True)`: the index of the first `true`, `none` when
there is none (where the source raises ValueError). -/
def indexOfTrue : List Bool → Option Nat
  | [] => none
  | true :: _ => some 0
  | false :: rest => (indexOfTrue rest).map (· + 1)

/-- The per-instance state of a `TOTP` engine (the time source is passed
explicitly where the engine reads it). -/
structure TOTPState where
  secret : List Nat
  n_digits : Nat
  period : Nat
deriving DecidableEq

/-- `TOTP.get_otp` with an explicit timestamp: the counter is
`int(timestamp) // period` (floor division; timestamps are modelled as
integers). -/
def TOTP_get_otp (alg : HashFun) (st : TOTPState) (timestamp : Int) :
    Except String (List Char) :=
  OTPBase_get_otp alg st.secret (Int.fdiv timestamp st.period) st.n_digits

/-- `TOTP.compare`: reject a negative window, read the time source once
(the `now` argument), generate the candidate codes for offsets
`-k, ..., k` steps around it, and accept when any candidate matches.
A ValueError raised by `_compare` propagates to the caller. -/
def TOTP_compare (alg : HashFun) (st : TOTPState) (now : Int)
    (code : List Char) (max_step_difference : Int) : Except String Bool :=
  if max_step_difference < 0 then Except.error maxStepMsg
  else
    let offsets := (List.range (2 * max_step_difference.toNat + 1)).map
      (fun i : Nat => (i : Int) - max_step_difference)
    match exceptList (offsets.map
        (fun i => TOTP_get_otp alg st (now + i * st.period))) with
    | Except.error e => Except.error e
    | Except.ok valid_codes =>
      match exceptList (valid_codes.map (fun valid =>
          OTPBase_compare code valid)) with
      | Except.error e => Except.error e
      | Except.ok results => Except.ok (results.any (fun b => b))

/-- The per-instance state of an `HOTP` engine. -/
structure HOTPState where
  secret : List Nat
  n_digits : Nat
  counter : Nat
deriving DecidableEq

/-- `HOTP.get_otp`: with no explicit counter the stored counter is used and,
when `auto_increment` is true, incremented before the code is generated
(so the increment persists even if generation then raises); with an
explicit counter the state is untouched. -/
def HOTP_get_otp (alg : HashFun) (s : HOTPState) (counter : Option Int)
    (auto_increment : Bool) : Except String (List Char) × HOTPState :=
  match counter with
  | none =>
    let c : Int := s.counter
    let s' := if auto_increment then { s with counter := s.counter + 1 } else s
    (OTPBase_get_otp alg s.secret c s.n_digits, s')
  | some c => (OTPBase_get_otp alg s.secret c s.n_digits, s)

/-- `HOTP.compare`: reject a negative look-ahead, generate candidate codes
for counters `current, ..., current + look_ahead` (propagating a generation
error with the state unchanged), then compare; a ValueError from `_compare`
or from `index(True)` is caught and yields False with the state unchanged,
and on the first match the counter resynchronizes to the matched counter
plus one. -/
def HOTP_compare (alg : HashFun) (s : HOTPState) (code : List Char)
    (look_ahead : Int) : Except String Bool × HOTPState :=
  if look_ahead < 0 then (Except.error lookAheadMsg, s)
  else
    let counters := (List.range (look_ahead.toNat + 1)).map
      (fun i => s.counter + i)
    match exceptList (counters.map
        (fun c : Nat => (HOTP_get_otp alg s (some (c : Int)) true).1)) with
    | Except.error e => (Except.error e, s)
    | Except.ok valid_codes =>
      match exceptList (valid_codes.map (fun valid =>
          OTPBase_compare code valid)) with
      | Except.error _ => (Except.ok false, s)
      | Except.ok is_valid =>
        match indexOfTrue is_valid with
        | none => (Except.ok false, s)
        | some correct_idx =>
          (Except.ok true, { s with counter := counters.getD correct_idx 0 + 1 })

/-- A concrete digest function standing in for the external HMAC library in
witnesses: the reversed message followed by twelve zero bytes (20 bytes for
an 8-byte counter, last byte 0, so the dynamic truncation reads the low
counter bytes and small counters get distinct codes). -/
def toyAlg : HashFun :=
  fun _key msg => msg.reverse ++ List.replicate 12 0

deriving instance DecidableEq for Except

lemma foldl_and_eq {α : Type} (f : α → Bool) :
    ∀ (l : List α) (acc : Bool),
      l.foldl (fun a p => a && f p) acc = (acc && l.all f)
  | [], acc => by simp
  | x :: l, acc => by
    simp [List.foldl_cons, List.all_cons, foldl_and_eq f l, Bool.and_assoc]

lemma ctc_cons (a b : Char) (as bs : List Char) :
    constant_time_compare (a :: as) (b :: bs) = true ↔
      (a = b ∧ constant_time_compare as bs = true) := by
  unfold constant_time_compare
  rw [foldl_and_eq, foldl_and_eq]
  simp only [List.zip_cons_cons, List.all_cons, List.length_cons,
    Bool.and_eq_true, beq_iff_eq]
  constructor
  · rintro ⟨hlen, hab, hall⟩
    exact ⟨hab, by omega, hall⟩
  · rintro ⟨hab, hlen, hall⟩
    exact ⟨by omega, hab, hall⟩

lemma constant_time_compare_eq_true_iff :
    ∀ (a b : List Char), constant_time_compare a b = true ↔ a = b := by
  intro a
  induction a with
  | nil =>
    intro b
    cases b with
    | nil => simp [constant_time_compare, foldl_and_eq]
    | cons b bs => simp [constant_time_compare, foldl_and_eq]
  | cons a as ih =>
    intro b
    cases b with
    | nil => simp [constant_time_compare, foldl_and_eq]
    | cons b bs =>
      rw [ctc_cons, ih bs]
      simp [List.cons.injEq]

lemma beq_eq_false_of_isDigit {c x : Char} (h : c.isDigit = true)
    (hx : x.isDigit = false) : (c == x) = false := by
  cases hbe : (c == x) with
  | false => rfl
  | true =>
    have hcx : c = x := eq_of_beq hbe
    rw [hcx, hx] at h
    cases h

lemma isPyIntSpace_eq_false_of_isDigit {c : Char} (h : c.isDigit = true) :
    isPyIntSpace c = false := by
  unfold isPyIntSpace
  rw [beq_eq_false_of_isDigit h (by decide), beq_eq_false_of_isDigit h (by decide),
    beq_eq_false_of_isDigit h (by decide), beq_eq_false_of_isDigit h (by decide),
    beq_eq_false_of_isDigit h (by decide), beq_eq_false_of_isDigit h (by decide)]
  rfl

lemma digitsTail_of_all_digits :
    ∀ (s : List Char), (∀ c ∈ s, c.isDigit = true) → digitsTail s = true := by
  intro s
  induction s with
  | nil => intro _; rfl
  | cons c rest ih =>
    intro h
    have hc : c.isDigit = true := h c (List.mem_cons_self c rest)
    unfold digitsTail
    rw [beq_eq_false_of_isDigit hc (by decide), if_neg (by simp), hc,
      ih (fun x hx => h x (List.mem_cons_of_mem c hx))]
    rfl

lemma dropWhile_isPyIntSpace_of_digits {s : List Char}
    (h : ∀ c ∈ s, c.isDigit = true) : s.dropWhile isPyIntSpace = s := by
  cases s with
  | nil => rfl
  | cons c rest =>
    have hc : c.isDigit = true := h c (List.mem_cons_self c rest)
    simp [List.dropWhile_cons, isPyIntSpace_eq_false_of_isDigit hc]

lemma stripPyWs_of_digits {s : List Char}
    (h : ∀ c ∈ s, c.isDigit = true) : stripPyWs s = s := by
  unfold stripPyWs
  rw [dropWhile_isPyIntSpace_of_digits h,
    dropWhile_isPyIntSpace_of_digits (fun c hc => h c (List.mem_reverse.mp hc)),
    List.reverse_reverse]

lemma pyIntOk_of_all_digits {s : List Char}
    (h : ∀ c ∈ s, c.isDigit = true) (hne : s ≠ []) : pyIntOk s = true := by
  unfold pyIntOk
  rw [stripPyWs_of_digits h]
  cases s with
  | nil => exact absurd rfl hne
  | cons c rest =>
    have hc : c.isDigit = true := h c (List.mem_cons_self c rest)
    show (if (c == '+' || c == '-') = true then pyDigitSeq rest
      else c.isDigit && digitsTail rest) = true
    rw [beq_eq_false_of_isDigit hc (by decide),
      beq_eq_false_of_isDigit hc (by decide)]
    rw [if_neg (by simp), hc,
      digitsTail_of_all_digits rest (fun x hx => h x (List.mem_cons_of_mem c hx))]
    rfl

lemma isDigit_digitChar {m : Nat} (h : m < 10) : (Nat.digitChar m).isDigit = true := by
  interval_cases m <;> decide

lemma natDecimalAux_all_digits :
    ∀ (fuel n : Nat), ∀ c ∈ natDecimalAux fuel n, c.isDigit = true := by
  intro fuel
  induction fuel with
  | zero => intro n c hc; simp [natDecimalAux] at hc
  | succ fuel ih =>
    intro n c hc
    unfold natDecimalAux at hc
    by_cases hn : n < 10
    · rw [if_pos hn] at hc
      rcases List.mem_singleton.mp hc with rfl
      exact isDigit_digitChar hn
    · rw [if_neg hn] at hc
      rcases List.mem_append.mp hc with h1 | h1
      · exact ih (n / 10) c h1
      · rcases List.mem_singleton.mp h1 with rfl
        exact isDigit_digitChar (Nat.mod_lt n (by omega))

lemma natDecimal_ne_nil (n : Nat) : natDecimal n ≠ [] := by
  unfold natDecimal natDecimalAux
  by_cases hn : n < 10
  · rw [if_pos hn]; simp
  · rw [if_neg hn]; simp

lemma natDecimal_all_digits (n : Nat) : ∀ c ∈ natDecimal n, c.isDigit = true :=
  natDecimalAux_all_digits 40 n

lemma hotp_code_all_digits (alg : HashFun) (secret : List Nat) (counter_int : Int)
    (n_digits : Nat) : ∀ c ∈ hotp_code alg secret counter_int n_digits, c.isDigit = true := by
  intro c hc
  unfold hotp_code at hc
  set m := bytes_to_31_bit_int (pySlice (alg secret (int_to_bytearray counter_int))
    ((alg secret (int_to_bytearray counter_int)).getLastD 0 &&& 0x0f)
    (((alg secret (int_to_bytearray counter_int)).getLastD 0 &&& 0x0f) + 4)) with hm
  have hpad : ∀ x ∈ List.replicate (n_digits - (natDecimal m).length) '0' ++ natDecimal m,
      x.isDigit = true := by
    intro x hx
    rcases List.mem_append.mp hx with h1 | h1
    · rw [List.eq_of_mem_replicate h1]; decide
    · exact natDecimal_all_digits m x h1
  unfold pyTakeLast at hc
  by_cases hd : n_digits = 0
  · rw [if_pos hd] at hc
    exact hpad c hc
  · rw [if_neg hd] at hc
    exact hpad c (List.mem_of_mem_drop hc)

lemma hotp_code_length (alg : HashFun) (secret : List Nat) (counter_int : Int)
    {n_digits : Nat} (hd : 0 < n_digits) :
    (hotp_code alg secret counter_int n_digits).length = n_digits := by
  unfold hotp_code pyTakeLast
  rw [if_neg (by omega)]
  rw [List.length_drop, List.length_append, List.length_replicate]
  omega

lemma hotp_code_ne_nil (alg : HashFun) (secret : List Nat) (counter_int : Int)
    (n_digits : Nat) : hotp_code alg secret counter_int n_digits ≠ [] := by
  by_cases hd : n_digits = 0
  · subst hd
    unfold hotp_code pyTakeLast
    rw [if_pos rfl]
    intro h
    rcases List.append_eq_nil.mp h with ⟨_, h2⟩
    exact natDecimal_ne_nil _ h2
  · intro h
    have := hotp_code_length alg secret counter_int (by omega : 0 < n_digits)
    rw [h] at this
    simp at this
    omega

lemma pyIntOk_hotp_code (alg : HashFun) (secret : List Nat) (counter_int : Int)
    (n_digits : Nat) : pyIntOk (hotp_code alg secret counter_int n_digits) = true :=
  pyIntOk_of_all_digits (hotp_code_all_digits alg secret counter_int n_digits)
    (hotp_code_ne_nil alg secret counter_int n_digits)

lemma bit_length_aux_le_iff :
    ∀ (fuel k n : Nat), k < fuel → (bit_length_aux fuel n ≤ k ↔ n < 2 ^ k) := by
  intro fuel
  induction fuel with
  | zero => intro k n hk; omega
  | succ fuel ih =>
    intro k n hk
    unfold bit_length_aux
    by_cases hn : n = 0
    · subst hn
      rw [if_pos rfl]
      constructor
      · intro _; exact Nat.pos_pow_of_pos k (by omega)
      · intro _; exact Nat.zero_le k
    · rw [if_neg hn]
      cases k with
      | zero =>
        constructor
        · intro h; omega
        · intro h; omega
      | succ j =>
        have hj : j < fuel := by omega
        rw [Nat.succ_le_succ_iff, ih j (n / 2) hj]
        constructor
        · intro h
          have : n < 2 ^ j * 2 := by
            rcases Nat.lt_or_ge n (2 ^ j * 2) with h2 | h2
            · exact h2
            · exfalso
              have : 2 ^ j ≤ n / 2 := by omega
              omega
          calc n < 2 ^ j * 2 := this
            _ = 2 ^ (j + 1) := by ring
        · intro h
          have : n < 2 ^ j * 2 := by
            calc n < 2 ^ (j + 1) := h
              _ = 2 ^ j * 2 := by ring
          omega

lemma bit_length_le_64_iff (n : Nat) : bit_length n ≤ 64 ↔ n < 2 ^ 64 :=
  bit_length_aux_le_iff 128 64 n (by omega)

lemma int_bit_length_natCast_le_64 {n : Nat} (h : n < 2 ^ 64) :
    int_bit_length (n : Int) ≤ 64 := by
  unfold int_bit_length
  rw [Int.natAbs_ofNat]
  exact (bit_length_le_64_iff n).mpr h

lemma OTPBase_get_otp_ok {alg : HashFun} {secret : List Nat} {c : Int}
    {d : Nat} (h : int_bit_length c ≤ 64) :
    OTPBase_get_otp alg secret c d = Except.ok (hotp_code alg secret c d) := by
  unfold OTPBase_get_otp
  rw [if_neg (by omega)]

lemma OTPBase_get_otp_err {alg : HashFun} {secret : List Nat} {c : Int}
    {d : Nat} (h : 64 < int_bit_length c) :
    OTPBase_get_otp alg secret c d = Except.error invalidCounterMsg := by
  unfold OTPBase_get_otp
  rw [if_pos h]

lemma OTPBase_compare_ok {a b : List Char} (ha : pyIntOk a = true)
    (hb : pyIntOk b = true) :
    OTPBase_compare a b = Except.ok (constant_time_compare a b) := by
  unfold OTPBase_compare
  rw [if_neg (by rw [ha]; simp), if_neg (by rw [hb]; simp)]

lemma OTPBase_compare_err_left {a : List Char} (b : List Char)
    (ha : pyIntOk a = false) :
    OTPBase_compare a b = Except.error invalidCodeMsg := by
  unfold OTPBase_compare
  rw [if_pos ha]

lemma exceptList_map_ok {α β : Type} {f : α → Except String β} {g : α → β} :
    ∀ {l : List α}, (∀ a ∈ l, f a = Except.ok (g a)) →
      exceptList (l.map f) = Except.ok (l.map g) := by
  intro l
  induction l with
  | nil => intro _; rfl
  | cons a l ih =>
    intro h
    have ha : f a = Except.ok (g a) := h a (List.mem_cons_self a l)
    rw [List.map_cons, List.map_cons, ha]
    simp only [exceptList]
    rw [ih (fun x hx => h x (List.mem_cons_of_mem a hx))]
    rfl

lemma exceptList_map_cons_error {α β : Type} {f : α → Except String β}
    {a : α} {e : String} (l : List α) (ha : f a = Except.error e) :
    exceptList ((a :: l).map f) = Except.error e := by
  rw [List.map_cons, ha]
  rfl

lemma indexOfTrue_map_range_none :
    ∀ (n : Nat) (p : Nat → Bool), (∀ i < n, p i = false) →
      indexOfTrue ((List.range n).map p) = none := by
  intro n
  induction n with
  | zero => intro p _; rfl
  | succ n ih =>
    intro p h
    rw [List.range_succ_eq_map, List.map_cons, List.map_map]
    rw [h 0 (by omega)]
    simp only [indexOfTrue]
    rw [ih (p ∘ Nat.succ) (fun i hi => h (i + 1) (by omega))]
    rfl

lemma indexOfTrue_map_range_some :
    ∀ (n : Nat) (p : Nat → Bool) (i : Nat), i < n → p i = true →
      (∀ j < i, p j = false) →
      indexOfTrue ((List.range n).map p) = some i := by
  intro n
  induction n with
  | zero => intro p i hi _ _; exact absurd hi (by omega)
  | succ n ih =>
    intro p i hi hp hmin
    rw [List.range_succ_eq_map, List.map_cons, List.map_map]
    cases i with
    | zero =>
      rw [hp]
      rfl
    | succ j =>
      rw [hmin 0 (by omega)]
      simp only [indexOfTrue]
      rw [ih (p ∘ Nat.succ) j (by omega) hp (fun m hm => hmin (m + 1) (by omega))]
      rfl

lemma getD_map_range {α : Type} :
    ∀ (n : Nat) (f : Nat → α) (i : Nat) (d₀ : α), i < n →
      ((List.range n).map f).getD i d₀ = f i := by
  intro n
  induction n with
  | zero => intro f i d₀ hi; exact absurd hi (by omega)
  | succ n ih =>
    intro f i d₀ hi
    rw [List.range_succ_eq_map, List.map_cons, List.map_map]
    cases i with
    | zero => simp [List.getD_cons_zero]
    | succ j =>
      rw [List.getD_cons_succ]
      rw [ih (f ∘ Nat.succ) j d₀ (by omega)]
      rfl

lemma exceptList_cons_error {α : Type} (e : String) (rest : List (Except String α)) :
    exceptList (Except.error e :: rest) = Except.error e := rfl

lemma int_bit_length_le_64 {x : Int} (h0 : 0 ≤ x) (h1 : x < 2 ^ 64) :
    int_bit_length x ≤ 64 := by
  unfold int_bit_length
  have hx : x.natAbs < 2 ^ 64 := by omega
  exact (bit_length_le_64_iff _).mpr hx

lemma fdiv_add_mul_self (now o : Int) {p : Int} (hp : 0 < p) :
    Int.fdiv (now + o * p) p = Int.fdiv now p + o := by
  rw [Int.fdiv_eq_ediv _ (by omega), Int.fdiv_eq_ediv _ (by omega)]
  exact Int.add_mul_ediv_right now o (by omega)

lemma HOTP_compare_no_match (alg : HashFun) (s : HOTPState) (code : List Char)
    {la : Int} (hla : 0 ≤ la) (hfit : s.counter + la.toNat < 2 ^ 64)
    (hnm : ∀ i ≤ la.toNat,
      hotp_code alg s.secret ((s.counter + i : Nat) : Int) s.n_digits ≠ code) :
    HOTP_compare alg s code la = (Except.ok false, s) := by
  unfold HOTP_compare
  rw [if_neg (by omega)]
  dsimp only
  have hgen : ∀ c ∈ (List.range (la.toNat + 1)).map (fun i => s.counter + i),
      (fun c : Nat => (HOTP_get_otp alg s (some (c : Int)) true).1) c
        = Except.ok ((fun c : Nat => hotp_code alg s.secret (c : Int) s.n_digits) c) := by
    intro c hc
    rcases List.mem_map.mp hc with ⟨i, hi, rfl⟩
    have hi' : i < la.toNat + 1 := List.mem_range.mp hi
    exact OTPBase_get_otp_ok (int_bit_length_natCast_le_64 (by omega))
  split
  case _ e hE =>
    exact absurd ((exceptList_map_ok hgen).symm.trans hE) (by simp)
  case _ valid hE =>
    have h1 := (exceptList_map_ok hgen).symm.trans hE
    injection h1 with hv
    subst hv
    by_cases hok : pyIntOk code = true
    · have hcmp : ∀ v ∈ ((List.range (la.toNat + 1)).map (fun i => s.counter + i)).map
          (fun c : Nat => hotp_code alg s.secret (c : Int) s.n_digits),
          (fun valid => OTPBase_compare code valid) v
            = Except.ok ((fun valid => constant_time_compare code valid) v) := by
        intro v hv
        rcases List.mem_map.mp hv with ⟨c, _, rfl⟩
        exact OTPBase_compare_ok hok (pyIntOk_hotp_code alg s.secret (c : Int) s.n_digits)
      split
      case _ e hE2 =>
        exact absurd ((exceptList_map_ok hcmp).symm.trans hE2) (by simp)
      case _ is_valid hE2 =>
        have h2 := (exceptList_map_ok hcmp).symm.trans hE2
        injection h2 with hiv
        subst hiv
        rw [List.map_map, List.map_map]
        rw [indexOfTrue_map_range_none (la.toNat + 1) _ ?_]
        intro i hi
        by_cases hceq : code = hotp_code alg s.secret ((s.counter + i : Nat) : Int) s.n_digits
        · exact absurd hceq.symm (hnm i (by omega))
        · show constant_time_compare code
            (hotp_code alg s.secret ((s.counter + i : Nat) : Int) s.n_digits) = false
          cases hb : constant_time_compare code
              (hotp_code alg s.secret ((s.counter + i : Nat) : Int) s.n_digits) with
          | false => rfl
          | true => exact absurd ((constant_time_compare_eq_true_iff code _).mp hb) hceq
    · have hok' : pyIntOk code = false := by
        revert hok; cases pyIntOk code <;> simp
      rw [List.range_succ_eq_map, List.map_cons, List.map_cons, List.map_cons]
      rw [OTPBase_compare_err_left _ hok', exceptList_cons_error]

lemma HOTP_compare_match (alg : HashFun) (s : HOTPState) (code : List Char)
    {la : Int} (hla : 0 ≤ la) (hfit : s.counter + la.toNat < 2 ^ 64)
    {i : Nat} (hi : i ≤ la.toNat)
    (hmatch : hotp_code alg s.secret ((s.counter + i : Nat) : Int) s.n_digits = code)
    (hmin : ∀ j < i, hotp_code alg s.secret ((s.counter + j : Nat) : Int) s.n_digits ≠ code) :
    HOTP_compare alg s code la =
      (Except.ok true, { s with counter := s.counter + i + 1 }) := by
  have hok : pyIntOk code = true := by
    rw [← hmatch]
    exact pyIntOk_hotp_code alg s.secret _ s.n_digits
  unfold HOTP_compare
  rw [if_neg (by omega)]
  dsimp only
  have hgen : ∀ c ∈ (List.range (la.toNat + 1)).map (fun i => s.counter + i),
      (fun c : Nat => (HOTP_get_otp alg s (some (c : Int)) true).1) c
        = Except.ok ((fun c : Nat => hotp_code alg s.secret (c : Int) s.n_digits) c) := by
    intro c hc
    rcases List.mem_map.mp hc with ⟨j, hj, rfl⟩
    have hj' : j < la.toNat + 1 := List.mem_range.mp hj
    exact OTPBase_get_otp_ok (int_bit_length_natCast_le_64 (by omega))
  split
  case _ e hE =>
    exact absurd ((exceptList_map_ok hgen).symm.trans hE) (by simp)
  case _ valid hE =>
    have h1 := (exceptList_map_ok hgen).symm.trans hE
    injection h1 with hv
    subst hv
    have hcmp : ∀ v ∈ ((List.range (la.toNat + 1)).map (fun i => s.counter + i)).map
        (fun c : Nat => hotp_code alg s.secret (c : Int) s.n_digits),
        (fun valid => OTPBase_compare code valid) v
          = Except.ok ((fun valid => constant_time_compare code valid) v) := by
      intro v hv
      rcases List.mem_map.mp hv with ⟨c, _, rfl⟩
      exact OTPBase_compare_ok hok (pyIntOk_hotp_code alg s.secret (c : Int) s.n_digits)
    split
    case _ e hE2 =>
      exact absurd ((exceptList_map_ok hcmp).symm.trans hE2) (by simp)
    case _ is_valid hE2 =>
      have h2 := (exceptList_map_ok hcmp).symm.trans hE2
      injection h2 with hiv
      subst hiv
      rw [List.map_map, List.map_map]
      rw [indexOfTrue_map_range_some (la.toNat + 1) _ i (by omega) ?_ ?_]
      · show (Except.ok true,
          { s with counter :=
              ((List.range (la.toNat + 1)).map (fun i => s.counter + i)).getD i 0 + 1 }) =
          (Except.ok true, { s with counter := s.counter + i + 1 })
        rw [getD_map_range (la.toNat + 1) (fun i => s.counter + i) i 0 (by omega)]
      · show constant_time_compare code
          (hotp_code alg s.secret ((s.counter + i : Nat) : Int) s.n_digits) = true
        exact (constant_time_compare_eq_true_iff code _).mpr hmatch.symm
      · intro j hj
        by_cases hceq : code = hotp_code alg s.secret ((s.counter + j : Nat) : Int) s.n_digits
        · exact absurd hceq.symm (hmin j hj)
        · show constant_time_compare code
            (hotp_code alg s.secret ((s.counter + j : Nat) : Int) s.n_digits) = false
          cases hb : constant_time_compare code
              (hotp_code alg s.secret ((s.counter + j : Nat) : Int) s.n_digits) with
          | false => rfl
          | true => exact absurd ((constant_time_compare_eq_true_iff code _).mp hb) hceq

lemma TOTP_compare_window (alg : HashFun) (st : TOTPState) (now : Int)
    (code : List Char) {k : Int} (hk : 0 ≤ k) (hp : 0 < st.period)
    (hlo : 0 ≤ Int.fdiv now st.period - k)
    (hhi : Int.fdiv now st.period + k < 2 ^ 64)
    (hok : pyIntOk code = true) :
    TOTP_compare alg st now code k = Except.ok true ↔
      ∃ j : Int, Int.fdiv now st.period - k ≤ j ∧ j ≤ Int.fdiv now st.period + k ∧
        hotp_code alg st.secret j st.n_digits = code := by
  unfold TOTP_compare
  rw [if_neg (by omega)]
  dsimp only
  have hgen : ∀ o ∈ (List.range (2 * k.toNat + 1)).map (fun i : Nat => (i : Int) - k),
      (fun i => TOTP_get_otp alg st (now + i * st.period)) o
        = Except.ok ((fun o => hotp_code alg st.secret (Int.fdiv now st.period + o)
            st.n_digits) o) := by
    intro o ho
    rcases List.mem_map.mp ho with ⟨i, hi, rfl⟩
    have hi' : i < 2 * k.toNat + 1 := List.mem_range.mp hi
    show TOTP_get_otp alg st (now + ((i : Int) - k) * st.period) = _
    unfold TOTP_get_otp
    rw [fdiv_add_mul_self now ((i : Int) - k) (by exact_mod_cast hp)]
    exact OTPBase_get_otp_ok (int_bit_length_le_64 (by omega) (by omega))
  split
  case _ e hE =>
    exact absurd ((exceptList_map_ok hgen).symm.trans hE) (by simp)
  case _ valid hE =>
    have h1 := (exceptList_map_ok hgen).symm.trans hE
    injection h1 with hv
    subst hv
    have hcmp : ∀ v ∈ ((List.range (2 * k.toNat + 1)).map (fun i : Nat => (i : Int) - k)).map
        (fun o => hotp_code alg st.secret (Int.fdiv now st.period + o) st.n_digits),
        (fun valid => OTPBase_compare code valid) v
          = Except.ok ((fun valid => constant_time_compare code valid) v) := by
      intro v hv
      rcases List.mem_map.mp hv with ⟨o, _, rfl⟩
      exact OTPBase_compare_ok hok (pyIntOk_hotp_code alg st.secret _ st.n_digits)
    split
    case _ e hE2 =>
      exact absurd ((exceptList_map_ok hcmp).symm.trans hE2) (by simp)
    case _ results hE2 =>
      have h2 := (exceptList_map_ok hcmp).symm.trans hE2
      injection h2 with hrv
      subst hrv
      simp only [Except.ok.injEq]
      rw [List.map_map, List.map_map, List.any_eq_true]
      constructor
      · rintro ⟨x, hx, hxt⟩
        rcases List.mem_map.mp hx with ⟨i, hi, rfl⟩
        have hi' : i < 2 * k.toNat + 1 := List.mem_range.mp hi
        refine ⟨Int.fdiv now st.period + ((i : Int) - k), by omega, by omega, ?_⟩
        exact ((constant_time_compare_eq_true_iff code
          (hotp_code alg st.secret (Int.fdiv now st.period + ((i : Int) - k))
            st.n_digits)).mp hxt).symm
      · rintro ⟨j, hj1, hj2, hj3⟩
        refine ⟨_, List.mem_map.mpr ⟨(j - Int.fdiv now st.period + k).toNat,
          List.mem_range.mpr (by omega), rfl⟩, ?_⟩
        show constant_time_compare code
          (hotp_code alg st.secret
            (Int.fdiv now st.period + (((j - Int.fdiv now st.period + k).toNat : Int) - k))
            st.n_digits) = true
        have hjj : Int.fdiv now st.period
            + (((j - Int.fdiv now st.period + k).toNat : Int) - k) = j := by omega
        rw [hjj]
        exact (constant_time_compare_eq_true_iff _ _).mpr hj3.symm

lemma pyIntOk_nil : pyIntOk ([] : List Char) = false := rfl

lemma OTPBase_compare_err_right {b : List Char} (a : List Char)
    (ha : pyIntOk a = true) (hb : pyIntOk b = false) :
    OTPBase_compare a b = Except.error invalidCodeMsg := by
  unfold OTPBase_compare
  rw [if_neg (by rw [ha]; simp), if_pos hb]

lemma HOTP_compare_state_or (alg : HashFun) (s : HOTPState) (code : List Char)
    (la : Int) :
    (HOTP_compare alg s code la).2 = s ∨
      (HOTP_compare alg s code la).1 = Except.ok true := by
  unfold HOTP_compare
  by_cases hla : la < 0
  · rw [if_pos hla]
    left
    rfl
  · rw [if_neg hla]
    dsimp only
    split
    · left; rfl
    · split
      · left; rfl
      · split
        · left; rfl
        · right; rfl

lemma HOTP_compare_bad_code (alg : HashFun) (s : HOTPState) (code : List Char)
    {la : Int} (hla : 0 ≤ la) (hfit : s.counter + la.toNat < 2 ^ 64)
    (hbad : pyIntOk code = false) :
    HOTP_compare alg s code la = (Except.ok false, s) := by
  refine HOTP_compare_no_match alg s code hla hfit ?_
  intro i _ heq
  have hok : pyIntOk code = true := heq ▸ pyIntOk_hotp_code alg s.secret _ s.n_digits
  rw [hbad] at hok
  cases hok

lemma TOTP_compare_code_error (alg : HashFun) (st : TOTPState) (now : Int)
    (code : List Char) {k : Int} (hk : 0 ≤ k) (hp : 0 < st.period)
    (hlo : 0 ≤ Int.fdiv now st.period - k)
    (hhi : Int.fdiv now st.period + k < 2 ^ 64)
    (hbad : pyIntOk code = false) :
    TOTP_compare alg st now code k = Except.error invalidCodeMsg := by
  unfold TOTP_compare
  rw [if_neg (by omega)]
  dsimp only
  have hgen : ∀ o ∈ (List.range (2 * k.toNat + 1)).map (fun i : Nat => (i : Int) - k),
      (fun i => TOTP_get_otp alg st (now + i * st.period)) o
        = Except.ok ((fun o => hotp_code alg st.secret (Int.fdiv now st.period + o)
            st.n_digits) o) := by
    intro o ho
    rcases List.mem_map.mp ho with ⟨i, hi, rfl⟩
    have hi' : i < 2 * k.toNat + 1 := List.mem_range.mp hi
    show TOTP_get_otp alg st (now + ((i : Int) - k) * st.period) = _
    unfold TOTP_get_otp
    rw [fdiv_add_mul_self now ((i : Int) - k) (by exact_mod_cast hp)]
    exact OTPBase_get_otp_ok (int_bit_length_le_64 (by omega) (by omega))
  split
  case _ e hE =>
    exact absurd ((exceptList_map_ok hgen).symm.trans hE) (by simp)
  case _ valid hE =>
    have h1 := (exceptList_map_ok hgen).symm.trans hE
    injection h1 with hv
    subst hv
    rw [List.range_succ_eq_map, List.map_cons, List.map_cons, List.map_cons]
    rw [OTPBase_compare_err_left _ hbad, exceptList_cons_error]

/-- C8: `constant_time_compare` returns true exactly when the two strings
have equal length and equal characters at every position, i.e. exactly when
they are equal; in particular, when the lengths differ the result is false
(the AND-accumulation over the zipped common length never turns a length
mismatch back into a match). -/
theorem constant_time_compare_correct :
    (∀ a b : List Char, constant_time_compare a b = true ↔ a = b)
    ∧ (∀ a b : List Char, a.length ≠ b.length → constant_time_compare a b = false) := by
  refine ⟨constant_time_compare_eq_true_iff, ?_⟩
  intro a b hlen
  cases hb : constant_time_compare a b with
  | false => rfl
  | true =>
    have hab := (constant_time_compare_eq_true_iff a b).mp hb
    subst hab
    exact absurd rfl hlen

/-- Witness for C8 at concrete inputs. -/
theorem constant_time_compare_correct_witness :
    constant_time_compare ['1', '2', '3'] ['1', '2', '3'] = true
    ∧ constant_time_compare ['1'] ['1', '2'] = false :=
  ⟨(constant_time_compare_correct.1 ['1', '2', '3'] ['1', '2', '3']).mpr rfl,
   constant_time_compare_correct.2 ['1'] ['1', '2'] (by decide)⟩

/-- C9: for every digest function, secret and counter that generation
accepts, and every positive digit count, the generated code is a string of
exactly `n_digits` characters, all decimal digits (left-padded with zeros,
truncated to the last `n_digits` characters when longer). -/
theorem generated_code_shape (alg : HashFun) (secret : List Nat) (c : Int)
    (d : Nat) (code : List Char) (hd : 0 < d)
    (h : OTPBase_get_otp alg secret c d = Except.ok code) :
    code.length = d ∧ code.all Char.isDigit = true := by
  unfold OTPBase_get_otp at h
  by_cases hbl : 64 < int_bit_length c
  · rw [if_pos hbl] at h
    cases h
  · rw [if_neg hbl] at h
    injection h with hc
    subst hc
    refine ⟨hotp_code_length alg secret c hd, ?_⟩
    rw [List.all_eq_true]
    intro ch hch
    exact hotp_code_all_digits alg secret c d ch hch

/-- Witness for C9 at a concrete secret, counter and digest function. -/
theorem generated_code_shape_witness :
    (hotp_code toyAlg [0] 5 6).length = 6
    ∧ (hotp_code toyAlg [0] 5 6).all Char.isDigit = true :=
  generated_code_shape toyAlg [0] 5 6 (hotp_code toyAlg [0] 5 6)
    (by decide) (by decide)

/-- C6: generation rejects a counter outside the unsigned 64-bit range with
the InvalidCounter error, for every digest function alike (the rejection
happens before any hashing: the error value does not depend on `alg`), and
never so rejects a counter that fits. -/
theorem counter_bound (alg : HashFun) (secret : List Nat) (d : Nat) (c : Nat) :
    (2 ^ 64 ≤ c →
      OTPBase_get_otp alg secret (c : Int) d = Except.error invalidCounterMsg)
    ∧ (c < 2 ^ 64 →
      OTPBase_get_otp alg secret (c : Int) d
        = Except.ok (hotp_code alg secret (c : Int) d)) := by
  constructor
  · intro h
    refine OTPBase_get_otp_err ?_
    unfold int_bit_length
    rw [Int.natAbs_ofNat]
    have hiff := bit_length_le_64_iff c
    omega
  · intro h
    exact OTPBase_get_otp_ok (int_bit_length_natCast_le_64 h)

/-- Witness for C6 on both sides of the 64-bit boundary. -/
theorem counter_bound_witness :
    OTPBase_get_otp toyAlg [0] ((2 ^ 64 : Nat) : Int) 6 = Except.error invalidCounterMsg
    ∧ OTPBase_get_otp toyAlg [0] ((5 : Nat) : Int) 6
      = Except.ok (hotp_code toyAlg [0] ((5 : Nat) : Int) 6) :=
  ⟨(counter_bound toyAlg [0] 6 (2 ^ 64)).1 (by norm_num),
   (counter_bound toyAlg [0] 6 5).2 (by norm_num)⟩

/-- C2: when the submitted code matches none of the candidate codes for
counters current..current+look_ahead, HOTP compare returns False and leaves
the stored counter (indeed the whole state) unchanged: no resync, no
mutation. -/
theorem hotp_no_match_invariant (alg : HashFun) (s : HOTPState)
    (code : List Char) (la : Int) (hla : 0 ≤ la)
    (hfit : s.counter + la.toNat < 2 ^ 64)
    (hnm : ∀ i ≤ la.toNat,
      hotp_code alg s.secret ((s.counter + i : Nat) : Int) s.n_digits ≠ code) :
    HOTP_compare alg s code la = (Except.ok false, s) :=
  HOTP_compare_no_match alg s code hla hfit hnm

/-- Witness for C2: a wrong guess leaves the counter at its old value. -/
theorem hotp_no_match_invariant_witness :
    HOTP_compare toyAlg ⟨[0], 6, 1⟩ ['9', '9', '9', '9', '9', '9'] 2
      = (Except.ok false, ⟨[0], 6, 1⟩) :=
  hotp_no_match_invariant toyAlg ⟨[0], 6, 1⟩ ['9', '9', '9', '9', '9', '9'] 2
    (by decide) (by decide)
    (by
      intro i hi
      have hi2 : i ≤ 2 := by omega
      interval_cases i <;> decide)

/-- C3: if the submitted code equals the candidate code at some offset within
the look-ahead window, HOTP compare succeeds and resynchronizes the stored
counter to current + i + 1 for the smallest matching offset i. -/
theorem hotp_resync (alg : HashFun) (s : HOTPState) (code : List Char)
    (la : Int) (hla : 0 ≤ la) (hfit : s.counter + la.toNat < 2 ^ 64)
    {i : Nat} (hi : i ≤ la.toNat)
    (hmatch : hotp_code alg s.secret ((s.counter + i : Nat) : Int) s.n_digits = code)
    (hmin : ∀ j < i,
      hotp_code alg s.secret ((s.counter + j : Nat) : Int) s.n_digits ≠ code) :
    HOTP_compare alg s code la
      = (Except.ok true, { s with counter := s.counter + i + 1 }) :=
  HOTP_compare_match alg s code hla hfit hi hmatch hmin

/-- Witness for C3: a code two steps ahead resyncs the counter to c + 3. -/
theorem hotp_resync_witness :
    HOTP_compare toyAlg ⟨[0], 6, 1⟩ (hotp_code toyAlg [0] 3 6) 2
      = (Except.ok true, ⟨[0], 6, 4⟩) :=
  hotp_resync toyAlg ⟨[0], 6, 1⟩ (hotp_code toyAlg [0] 3 6) 2
    (by decide) (by decide) (by decide : (2 : Nat) ≤ (2 : Int).toNat) (by decide)
    (by
      intro j hj
      have hj2 : j < 2 := hj
      interval_cases j <;> decide)

/-- C7: TOTP compare reads the time source once (the single `now` argument
below) and, for a well-formed code and a window that stays inside the valid
step range, returns true exactly when the code equals the generated code of
some step in the inclusive symmetric window current_step - k .. current_step
+ k. -/
theorem totp_symmetric_window (alg : HashFun) (st : TOTPState) (now : Int)
    (code : List Char) (k : Int) (hk : 0 ≤ k) (hp : 0 < st.period)
    (hlo : 0 ≤ Int.fdiv now st.period - k)
    (hhi : Int.fdiv now st.period + k < 2 ^ 64)
    (hok : pyIntOk code = true) :
    TOTP_compare alg st now code k = Except.ok true ↔
      ∃ j : Int, Int.fdiv now st.period - k ≤ j ∧ j ≤ Int.fdiv now st.period + k ∧
        hotp_code alg st.secret j st.n_digits = code :=
  TOTP_compare_window alg st now code hk hp hlo hhi hok

/-- Witness for C7: with period 30 and now = 90 (current step 3), the code of
step 2 = now - period is accepted in the k = 1 window. -/
theorem totp_symmetric_window_witness :
    TOTP_compare toyAlg ⟨[0], 6, 30⟩ 90 (hotp_code toyAlg [0] 2 6) 1
      = Except.ok true :=
  (totp_symmetric_window toyAlg ⟨[0], 6, 30⟩ 90 (hotp_code toyAlg [0] 2 6) 1
    (by decide) (by decide) (by decide) (by decide) (by decide)).mpr
    ⟨2, by decide, by decide, rfl⟩

/-- C10: the empty string contains no non-digit character, yet the core
comparison rejects it with the invalid-code-format error (Python's
`int("", 10)` fails on emptiness, not on a bad character); consequently
TOTP compare propagates the error for an empty submitted code, while HOTP
compare catches it and returns False with the state unchanged. -/
theorem empty_code_rejected :
    (∀ ch ∈ ([] : List Char), ch.isDigit = true)
    ∧ (∀ b : List Char, OTPBase_compare [] b = Except.error invalidCodeMsg)
    ∧ (∀ (alg : HashFun) (st : TOTPState) (now k : Int), 0 ≤ k → 0 < st.period →
        0 ≤ Int.fdiv now st.period - k → Int.fdiv now st.period + k < 2 ^ 64 →
        TOTP_compare alg st now [] k = Except.error invalidCodeMsg)
    ∧ (∀ (alg : HashFun) (s : HOTPState) (la : Int), 0 ≤ la →
        s.counter + la.toNat < 2 ^ 64 →
        HOTP_compare alg s [] la = (Except.ok false, s)) := by
  refine ⟨?_, ?_, ?_, ?_⟩
  · intro ch hch
    cases hch
  · intro b
    exact OTPBase_compare_err_left b pyIntOk_nil
  · intro alg st now k hk hp hlo hhi
    exact TOTP_compare_code_error alg st now [] hk hp hlo hhi pyIntOk_nil
  · intro alg s la hla hfit
    exact HOTP_compare_bad_code alg s [] hla hfit pyIntOk_nil

/-- Witness for C10 at concrete engines. -/
theorem empty_code_rejected_witness :
    OTPBase_compare [] ['1'] = Except.error invalidCodeMsg
    ∧ TOTP_compare toyAlg ⟨[0], 6, 30⟩ 90 [] 1 = Except.error invalidCodeMsg
    ∧ HOTP_compare toyAlg ⟨[0], 6, 1⟩ [] 2 = (Except.ok false, ⟨[0], 6, 1⟩) :=
  ⟨empty_code_rejected.2.1 ['1'],
   empty_code_rejected.2.2.1 toyAlg ⟨[0], 6, 30⟩ 90 1
     (by decide) (by decide) (by decide) (by decide),
   empty_code_rejected.2.2.2 toyAlg ⟨[0], 6, 1⟩ 2 (by decide) (by decide)⟩

/-- C1 as stated fails on the code: with the default auto-increment,
`get_otp()` advances the stored counter from 1 to 2 before `compare` runs,
so `compare` checks the codes of counters 2, 3, 4 against the code generated
at counter 1 and returns False (shown here with a concrete digest function
whose codes at adjacent counters differ), rather than returning success. -/
theorem hotp_roundtrip_counterexample :
    HOTP_get_otp toyAlg ⟨[0], 6, 1⟩ none true
      = (Except.ok ['7', '7', '7', '2', '1', '6'], ⟨[0], 6, 2⟩)
    ∧ HOTP_compare toyAlg ⟨[0], 6, 2⟩ ['7', '7', '7', '2', '1', '6'] 2
      = (Except.ok false, ⟨[0], 6, 2⟩) := by
  decide

/-- C1 amended: for a freshly constructed engine with counter c,
`compare` of a `get_otp` call with auto-increment off succeeds and leaves the counter
at c + 1; with the default auto-increment, `get_otp()` itself moves the
counter to c + 1 and the subsequent `compare` returns False whenever the
codes of counters c+1..c+3 differ from the code of c (the generated code
lies one step behind the verification window), the counter remaining c+1. -/
theorem hotp_roundtrip_amended (alg : HashFun) (secret : List Nat) (d : Nat)
    (c : Nat) (hfit : c + 3 < 2 ^ 64) :
    (HOTP_get_otp alg ⟨secret, d, c⟩ none false
        = (Except.ok (hotp_code alg secret (c : Int) d), ⟨secret, d, c⟩)
      ∧ HOTP_compare alg ⟨secret, d, c⟩ (hotp_code alg secret (c : Int) d) 2
        = (Except.ok true, ⟨secret, d, c + 1⟩))
    ∧ ((∀ i, 1 ≤ i → i ≤ 3 →
          hotp_code alg secret ((c + i : Nat) : Int) d
            ≠ hotp_code alg secret (c : Int) d) →
        HOTP_get_otp alg ⟨secret, d, c⟩ none true
          = (Except.ok (hotp_code alg secret (c : Int) d), ⟨secret, d, c + 1⟩)
        ∧ HOTP_compare alg ⟨secret, d, c + 1⟩ (hotp_code alg secret (c : Int) d) 2
          = (Except.ok false, ⟨secret, d, c + 1⟩)) := by
  constructor
  · constructor
    · have h0 : HOTP_get_otp alg ⟨secret, d, c⟩ none false
          = (OTPBase_get_otp alg secret (c : Int) d, ⟨secret, d, c⟩) := rfl
      rw [h0, OTPBase_get_otp_ok (int_bit_length_natCast_le_64 (by omega))]
    · have h := HOTP_compare_match alg ⟨secret, d, c⟩
        (hotp_code alg secret (c : Int) d)
        (by decide : (0 : Int) ≤ 2)
        (by show c + (2 : Int).toNat < 2 ^ 64; omega)
        (by decide : (0 : Nat) ≤ (2 : Int).toNat)
        rfl (by intro j hj; exact absurd hj (by omega))
      exact h
  · intro hdist
    constructor
    · have h0 : HOTP_get_otp alg ⟨secret, d, c⟩ none true
          = (OTPBase_get_otp alg secret (c : Int) d, ⟨secret, d, c + 1⟩) := rfl
      rw [h0, OTPBase_get_otp_ok (int_bit_length_natCast_le_64 (by omega))]
    · refine HOTP_compare_no_match alg ⟨secret, d, c + 1⟩ _ (by decide)
        (by show c + 1 + (2 : Int).toNat < 2 ^ 64; omega) ?_
      intro i hi heq
      have hi2 : i ≤ 2 := by
        revert hi
        show i ≤ (2 : Int).toNat → i ≤ 2
        omega
      refine hdist (i + 1) (by omega) (by omega) ?_
      rw [show (c + (i + 1) : Nat) = (c + 1 + i : Nat) from by omega]
      exact heq

/-- Witness for the amended C1 at a concrete engine. -/
theorem hotp_roundtrip_amended_witness :
    (HOTP_get_otp toyAlg ⟨[0], 6, 1⟩ none false
        = (Except.ok (hotp_code toyAlg [0] 1 6), ⟨[0], 6, 1⟩)
      ∧ HOTP_compare toyAlg ⟨[0], 6, 1⟩ (hotp_code toyAlg [0] 1 6) 2
        = (Except.ok true, ⟨[0], 6, 2⟩))
    ∧ (HOTP_get_otp toyAlg ⟨[0], 6, 1⟩ none true
        = (Except.ok (hotp_code toyAlg [0] 1 6), ⟨[0], 6, 2⟩)
      ∧ HOTP_compare toyAlg ⟨[0], 6, 2⟩ (hotp_code toyAlg [0] 1 6) 2
        = (Except.ok false, ⟨[0], 6, 2⟩)) :=
  ⟨(hotp_roundtrip_amended toyAlg [0] 6 1 (by norm_num)).1,
   (hotp_roundtrip_amended toyAlg [0] 6 1 (by norm_num)).2
     (by
       intro i h1 h3
       interval_cases i <;> decide)⟩

/-- C4 as stated fails on the code: `get_otp()` with auto-increment mutates
the counter before generating, so when generation then fails (stored counter
of 65 bits) the error is raised with the counter already advanced. -/
theorem hotp_atomicity_counterexample :
    (HOTP_get_otp toyAlg ⟨[0], 6, 2 ^ 64⟩ none true).1
      = Except.error invalidCounterMsg
    ∧ (HOTP_get_otp toyAlg ⟨[0], 6, 2 ^ 64⟩ none true).2 ≠ ⟨[0], 6, 2 ^ 64⟩ := by
  decide

/-- C4 amended: `compare` mutates the state only when it returns success, so
any erroring (or failing) `compare` leaves the counter unchanged; `get_otp`
with an explicit counter, or with auto_increment off, never mutates; but
`get_otp()` with auto-increment always advances the counter first, and it
errors exactly when the pre-call counter does not fit in 64 bits — in that
case the increment persists past the error. -/
theorem hotp_atomicity_amended (alg : HashFun) (s : HOTPState)
    (code : List Char) (la : Int) :
    ((HOTP_compare alg s code la).1 ≠ Except.ok true →
      (HOTP_compare alg s code la).2 = s)
    ∧ (∀ (c : Int) (ai : Bool), (HOTP_get_otp alg s (some c) ai).2 = s)
    ∧ (HOTP_get_otp alg s none false).2 = s
    ∧ (HOTP_get_otp alg s none true).2 = { s with counter := s.counter + 1 }
    ∧ ((HOTP_get_otp alg s none true).1 = Except.error invalidCounterMsg
        ↔ 2 ^ 64 ≤ s.counter) := by
  refine ⟨?_, fun c ai => rfl, rfl, rfl, ?_⟩
  · intro h
    rcases HOTP_compare_state_or alg s code la with h2 | h2
    · exact h2
    · exact absurd h2 h
  · have h0 : (HOTP_get_otp alg s none true).1
        = OTPBase_get_otp alg s.secret (s.counter : Int) s.n_digits := rfl
    rw [h0]
    unfold OTPBase_get_otp
    by_cases hbl : 64 < int_bit_length (s.counter : Int)
    · rw [if_pos hbl]
      unfold int_bit_length at hbl
      rw [Int.natAbs_ofNat] at hbl
      have hiff := bit_length_le_64_iff s.counter
      constructor
      · intro _
        omega
      · intro _
        rfl
    · rw [if_neg hbl]
      unfold int_bit_length at hbl
      rw [Int.natAbs_ofNat] at hbl
      have hiff := bit_length_le_64_iff s.counter
      constructor
      · intro h
        cases h
      · intro hge
        omega

/-- Witness for the amended C4: a failing compare leaves the state intact. -/
theorem hotp_atomicity_amended_witness :
    (HOTP_compare toyAlg ⟨[0], 6, 1⟩ ['9', '9', '9', '9', '9', '9'] 2).2
      = ⟨[0], 6, 1⟩ :=
  (hotp_atomicity_amended toyAlg ⟨[0], 6, 1⟩ ['9', '9', '9', '9', '9', '9'] 2).1
    (by decide)

/-- C5 as stated fails on the code: the format check is Python's
`int(code, 10)`, which accepts a leading sign, so the non-digit input "+12"
is not rejected — the comparison returns an ordinary boolean mismatch; and
HOTP compare catches the format error for "abc" and returns False instead of
failing with InvalidCodeFormat. -/
theorem code_format_counterexample :
    OTPBase_compare ['+', '1', '2'] ['1', '2'] = Except.ok false
    ∧ (HOTP_compare toyAlg ⟨[0], 6, 1⟩ ['a', 'b', 'c'] 2).1 = Except.ok false := by
  decide

/-- C5 amended: when either comparison input fails to parse under Python's
`int(·, 10)` (optional surrounding whitespace, optional sign, then a
nonempty digit sequence with optional internal underscores), the core
comparison and TOTP compare fail with the invalid-code-format error, while
HOTP compare catches that error and returns False with the state
unchanged. -/
theorem code_format_amended :
    (∀ a b : List Char, (pyIntOk a = false ∨ pyIntOk b = false) →
      OTPBase_compare a b = Except.error invalidCodeMsg)
    ∧ (∀ (alg : HashFun) (st : TOTPState) (now k : Int) (code : List Char),
        0 ≤ k → 0 < st.period → 0 ≤ Int.fdiv now st.period - k →
        Int.fdiv now st.period + k < 2 ^ 64 → pyIntOk code = false →
        TOTP_compare alg st now code k = Except.error invalidCodeMsg)
    ∧ (∀ (alg : HashFun) (s : HOTPState) (code : List Char) (la : Int),
        0 ≤ la → s.counter + la.toNat < 2 ^ 64 → pyIntOk code = false →
        HOTP_compare alg s code la = (Except.ok false, s)) := by
  refine ⟨?_, ?_, ?_⟩
  · intro a b hab
    by_cases ha : pyIntOk a = false
    · exact OTPBase_compare_err_left b ha
    · have ha' : pyIntOk a = true := by
        revert ha
        cases pyIntOk a <;> simp
      rcases hab with h | h
      · exact absurd ha' (by simp [h])
      · exact OTPBase_compare_err_right a ha' h
  · intro alg st now k code hk hp hlo hhi hbad
    exact TOTP_compare_code_error alg st now code hk hp hlo hhi hbad
  · intro alg s code la hla hfit hbad
    exact HOTP_compare_bad_code alg s code hla hfit hbad

/-- Witness for the amended C5 at concrete inputs. -/
theorem code_format_amended_witness :
    OTPBase_compare [' ', 'x'] ['1'] = Except.error invalidCodeMsg
    ∧ TOTP_compare toyAlg ⟨[0], 6, 30⟩ 90 ['a'] 1 = Except.error invalidCodeMsg
    ∧ HOTP_compare toyAlg ⟨[0], 6, 1⟩ ['a'] 2 = (Except.ok false, ⟨[0], 6, 1⟩) :=
  ⟨code_format_amended.1 [' ', 'x'] ['1'] (Or.inl (by decide)),
   code_format_amended.2.1 toyAlg ⟨[0], 6, 30⟩ 90 1 ['a']
     (by decide) (by decide) (by decide) (by decide) (by decide),
   code_format_amended.2.2 toyAlg ⟨[0], 6, 1⟩ ['a'] 2
     (by decide) (by decide) (by decide)⟩
